import Mathlib

/-!
Shallow embedding of the options_tracker application (src/app.py) and
verification of its specification claims.

The application retrieves rows from a paginated document-database API,
flattens each record by a type-tag-driven property extraction, coerces an
"Expiration" column to dates and a "Profit/Loss" column to numbers,
aggregates profit/loss by expiration date and formats the sums as currency
strings.

Modelling conventions:
* JSON payloads are modelled by the inductive `Json`; numeric payloads carry
  exact rationals (the Python code works with floats, but every value the
  pipeline manipulates at cent granularity is exactly representable, so the
  rational model is faithful on the domain of interest).
* Python code that can raise an exception is modelled with `Option`:
  `none` stands for the exception path.
* The unbounded `while True` pagination loop is modelled with explicit fuel;
  running out of fuel (`FetchResult.fuelOut`) marks divergence.
-/

namespace OptionsTracker

/-- Model of a parsed JSON value, as delivered by the external API. -/
inductive Json where
  | null
  | bool (b : Bool)
  | num (q : ℚ)
  | str (s : String)
  | arr (elems : List Json)
  | obj (fields : List (String × Json))

/-- Python truthiness of a JSON value (used by `v["name"] if v else None`). -/
def Json.truthy : Json → Bool
  | .null => false
  | .bool b => b
  | .num q => !(q == 0)
  | .str s => !(s == "")
  | .arr xs => !xs.isEmpty
  | .obj fs => !fs.isEmpty

/-- Dictionary lookup `v[k]`: `none` models a KeyError / TypeError. -/
def Json.index (v : Json) (k : String) : Option Json :=
  match v with
  | .obj fs => fs.lookup k
  | _ => none

/-- Whether a list of characters is a prefix of another (Boolean valued). -/
def isPrefixChars : List Char → List Char → Bool
  | [], _ => true
  | _ :: _, [] => false
  | a :: as, b :: bs => a == b && isPrefixChars as bs

/-- Whether the first character list occurs inside the second, modelling the
Python substring test `k in s` on strings. -/
def isInfixChars (p : List Char) : List Char → Bool
  | [] => isPrefixChars p []
  | s :: rest => isPrefixChars p (s :: rest) || isInfixChars p rest

/-- Python membership test `k in v`. On a dict it is key membership, on a
list it is element membership, on a string it is the substring test; on
null, booleans and numbers it raises a TypeError (modelled by `none`). -/
def Json.mem (v : Json) (k : String) : Option Bool :=
  match v with
  | .obj fs => some (fs.lookup k).isSome
  | .arr xs => some (xs.any fun x => match x with | .str s => s == k | _ => false)
  | .str s => some (isInfixChars k.data s.data)
  | _ => none

/-- Extraction of one rich-text fragment: `t.get("plain_text","")`.
A fragment that is not a dict has no `.get` (AttributeError), and a
`plain_text` value that is not a string would make `"".join` raise. -/
def fragText (t : Json) : Option String :=
  match t with
  | .obj fs =>
      match fs.lookup "plain_text" with
      | none => some ""
      | some (.str s) => some s
      | some _ => none
  | _ => none

/-- Concatenation of the fragment texts of a rich-text array. -/
def fragsText : List Json → Option String
  | [] => some ""
  | t :: ts =>
      match fragText t with
      | some s => (fragsText ts).map (fun r => s ++ r)
      | none => none

/-- Embedding of `_plain_text(rich)`: `"".join([t.get("plain_text","") for t
in (rich or [])])`. A falsy payload is replaced by the empty list; a truthy
payload that is not an array raises when its elements are consumed. -/
def plain_text (rich : Json) : Option String :=
  if rich.truthy then
    match rich with
    | .arr ts => fragsText ts
    | _ => none
  else some ""

/-- One property value of a record: the dict `p` with `t = p["type"]` and
`v = p[t]`, modelled by its type tag and the payload stored under the tag. -/
structure PropertyValue where
  tag : String
  val : Json

/-- Embedding of the formula branch of `_get_prop_val`:
`for k in ("number","string","date","boolean"):  if k in v: return v[k]`
followed by the fall-through `return v`. -/
def formulaKeys : List String → Json → Option Json
  | [], v => some v
  | k :: ks, v =>
      match v.mem k with
      | none => none
      | some true => v.index k
      | some false => formulaKeys ks v

/-- Embedding of `_get_prop_val(p)` from src/app.py lines 18-27. `none`
models a raised exception. -/
def get_prop_val (p : PropertyValue) : Option Json :=
  let t := p.tag
  let v := p.val
  if t = "title" ∨ t = "rich_text" then (plain_text v).map Json.str
  else if t = "number" then some v
  else if t = "select" then (if v.truthy then v.index "name" else some Json.null)
  else if t = "date" then (if v.truthy then v.index "start" else some Json.null)
  else if t = "formula" then formulaKeys ["number", "string", "date", "boolean"] v
  else some v

/-- One record returned by the external database: its property bag, in
iteration order (the opaque page id is unused by the code). -/
def Record := List (String × PropertyValue)

/-- One flattened row: column name mapped to the extracted scalar. -/
def Row := List (String × Json)

/-- Flattening of one record (the inner loop of `fetch_notion_df`):
`for k, val in props.items(): row[k] = _get_prop_val(val)`. `none` models
an exception raised while extracting a property. -/
def flattenRecord : Record → Option Row
  | [] => some []
  | (k, p) :: rest =>
      match get_prop_val p with
      | some v => (flattenRecord rest).map (fun r => (k, v) :: r)
      | none => none

/-- Flattening of a list of records, aborting on the first exception. -/
def flattenAll : List Record → Option (List Row)
  | [] => some []
  | r :: rs =>
      match flattenRecord r, flattenAll rs with
      | some row, some rows => some (row :: rows)
      | _, _ => none

/-- One response of `notion.databases.query`: the page of records, the
`has_more` flag and the continuation cursor. -/
structure QueryResponse where
  results : List Record
  has_more : Bool
  next_cursor : Option Nat

/-- Result of running the retriever: the accumulated rows, an exception, or
divergence of the `while True` loop (fuel exhaustion). -/
inductive FetchResult where
  | ok (rows : List Row)
  | error
  | fuelOut

/-- Embedding of the pagination loop of `fetch_notion_df` (src/app.py lines
29-39), parameterised by the API `query` and by fuel. Each iteration issues
a query with the current cursor, appends the flattened rows of the returned
page, stops when `has_more` is falsy, and otherwise continues with
`next_cursor`. -/
def fetchLoop (query : Option Nat → QueryResponse) : Nat → Option Nat → List Row → FetchResult
  | 0, _, _ => .fuelOut
  | f + 1, c, acc =>
      let resp := query c
      match flattenAll resp.results with
      | none => .error
      | some newRows =>
          if resp.has_more then fetchLoop query f resp.next_cursor (acc ++ newRows)
          else .ok (acc ++ newRows)

/-- Simulated external API for a database holding the record list `rs`:
pages of at most 100 records, in order, each page carrying `has_more`
(true exactly when records remain) and the next cursor. The cursor is the
offset of the next record; the initial query (cursor `none`) starts at 0. -/
def simApi (rs : List Record) (c : Option Nat) : QueryResponse :=
  let off := c.getD 0
  { results := (rs.drop off).take 100
    has_more := decide (off + 100 < rs.length)
    next_cursor := some (off + 100) }

/-- The cursor reached after `k` iterations of the pagination loop. -/
def iterCursor (query : Option Nat → QueryResponse) : Option Nat → Nat → Option Nat
  | c, 0 => c
  | c, k + 1 => iterCursor query ((query c).next_cursor) k

/-- Numeric value of a decimal digit character. -/
def digitVal (c : Char) : Nat := c.toNat - 48

/-- Decimal digit character for a value below ten. -/
def digitChar (d : Nat) : Char :=
  if d = 0 then '0' else if d = 1 then '1' else if d = 2 then '2'
  else if d = 3 then '3' else if d = 4 then '4' else if d = 5 then '5'
  else if d = 6 then '6' else if d = 7 then '7' else if d = 8 then '8'
  else if d = 9 then '9' else '*'

/-- Accumulating decimal value of a digit string (most significant first). -/
def valOfDigits (acc : Nat) (cs : List Char) : Nat :=
  cs.foldl (fun a c => a * 10 + digitVal c) acc

/-- Little-endian decimal digits of `n`, with explicit fuel so that the
definition is structurally recursive. -/
def digitsRevF : Nat → Nat → List Char
  | 0, _ => []
  | f + 1, n => if n = 0 then [] else digitChar (n % 10) :: digitsRevF f (n / 10)

/-- Decimal representation of a natural number, as characters. -/
def natReprChars (m : Nat) : List Char :=
  if m = 0 then ['0'] else (digitsRevF m m).reverse

/-- Fractional part after a decimal point: value and number of digits
(`none` when a non-digit appears, i.e. `float` would fail). -/
def parseFrac : List Char → Option (Nat × Nat)
  | [] => some (0, 0)
  | c :: cs =>
      if c.isDigit then
        match parseFrac cs with
        | some (v, l) => some (digitVal c * 10 ^ l + v, l + 1)
        | none => none
      else none

/-- Parse an unsigned decimal number `digits [ "." digits ]`, mirroring the
accepted inputs of Python `float` on the strings this pipeline produces
(no exponent notation, no whitespace). `acc` is the integer accumulator and
`seen` records whether an integer digit has been consumed. -/
def parseUnsigned : Nat → Bool → List Char → Option ℚ
  | acc, seen, [] => if seen then some (acc : ℚ) else none
  | acc, seen, c :: cs =>
      if c = '.' then
        match parseFrac cs with
        | some (v, l) =>
            if seen || decide (0 < l) then some ((acc : ℚ) + (v : ℚ) / 10 ^ l) else none
        | none => none
      else if c.isDigit then parseUnsigned (acc * 10 + digitVal c) true cs
      else none

/-- Parse a signed decimal number, the model of `pd.to_numeric(·,
errors="coerce")` on one cell: `none` is the NaN (null) outcome. -/
def parseNum : List Char → Option ℚ
  | [] => none
  | c :: cs =>
      if c = '-' then (parseUnsigned 0 false cs).map (fun q => -q)
      else if c = '+' then parseUnsigned 0 false cs
      else parseUnsigned 0 false (c :: cs)

/-- Character filter of `.str.replace(",", "").str.replace("$", "")`:
every comma and dollar sign is removed. -/
def stripMoney (cs : List Char) : List Char :=
  cs.filter (fun c => !(c == ',' || c == '$'))

/-- Parse a non-empty all-digit character string. -/
def parseNatAll (cs : List Char) : Option Nat :=
  if !cs.isEmpty && cs.all Char.isDigit then some (valOfDigits 0 cs) else none

/-- Number of days of a month, with the Gregorian leap-year rule. -/
def daysInMonth (y m : Nat) : Nat :=
  if m = 2 then
    if (y % 4 = 0 ∧ y % 100 ≠ 0) ∨ y % 400 = 0 then 29 else 28
  else if m = 4 ∨ m = 6 ∨ m = 9 ∨ m = 11 then 30 else 31

/-- Split a character list on a separator character. -/
def splitOnChar (sep : Char) : List Char → List (List Char)
  | [] => [[]]
  | c :: cs =>
      let r := splitOnChar sep cs
      if c = sep then [] :: r
      else
        match r with
        | g :: gs => (c :: g) :: gs
        | [] => [[c]]

/-- Model of `pd.to_datetime(·, errors="coerce")` on one cell, restricted to
the ISO `YYYY-MM-DD` strings that the flattener produces for date
properties: a valid calendar date becomes the order-preserving code
`y * 10000 + m * 100 + d`, anything else becomes null (`none`). -/
def parseDate (s : String) : Option Nat :=
  match splitOnChar '-' s.data with
  | [sy, sm, sd] =>
      match parseNatAll sy, parseNatAll sm, parseNatAll sd with
      | some y, some m, some d =>
          if 1 ≤ m ∧ m ≤ 12 ∧ 1 ≤ d ∧ d ≤ daysInMonth y m then
            some (y * 10000 + m * 100 + d)
          else none
      | _, _, _ => none
  | _ => none

/-- Column names of the fetched table: the union, in first-seen order, of
the row keys (how `pd.DataFrame(rows)` forms its columns). -/
def dfColumns (df : List Row) : List String :=
  (df.flatMap (fun r => r.map Prod.fst)).dedup

/-- Emptiness of the table, as `pandas` sees it: no rows or no columns. -/
def dfEmpty (df : List Row) : Bool :=
  df.isEmpty || (dfColumns df).isEmpty

/-- A cell after the coercion step: an untouched JSON scalar, a coerced
date (null on failure), or a coerced number (null on failure). -/
inductive CellVal where
  | json (j : Json)
  | date (d : Option Nat)
  | money (q : Option ℚ)

/-- A row after coercion. -/
def CRow := List (String × CellVal)

/-- Date coercion of one Expiration cell. The flattener produces strings or
null for date properties; null and non-string payloads coerce to null. -/
def parseExpVal (v : Json) : Option Nat :=
  match v with
  | .str s => parseDate s
  | _ => none

/-- Numeric coercion of one Profit/Loss cell on the object-dtype branch:
`pd.to_numeric(cell.astype(str).replace(",","").replace("$",""),
errors="coerce")`. A numeric payload round-trips through its decimal
representation; null and other payloads stringify to unparsable text and
coerce to null. -/
def coercePnlObj (v : Json) : Option ℚ :=
  match v with
  | .num q => some q
  | .str s => parseNum (stripMoney s.data)
  | _ => none

/-- Whether a row carries a present, non-numeric Profit/Loss cell (which
forces the column to object dtype). -/
def pnlCellBad (r : Row) : Bool :=
  match r.lookup "Profit/Loss" with
  | some (.num _) => false
  | none => false
  | some _ => true

/-- Whether the Profit/Loss column has object dtype: some row carries a
present, non-numeric cell (an all-numeric column, with missing cells as
NaN, is a float column and is passed through unchanged). -/
def pnlDtypeObject (df : List Row) : Bool :=
  df.any pnlCellBad

/-- Coercion of one row (src/app.py lines 66-72): the Expiration cell is
parsed as a date; the Profit/Loss cell is parsed as a number when the
column has object dtype; every other cell is untouched. -/
def coerceRow (objFlag : Bool) (r : Row) : CRow :=
  r.map fun kv =>
    if kv.1 = "Expiration" then (kv.1, CellVal.date (parseExpVal kv.2))
    else if kv.1 = "Profit/Loss" ∧ objFlag then (kv.1, CellVal.money (coercePnlObj kv.2))
    else (kv.1, CellVal.json kv.2)

/-- Coercion of the whole table. -/
def coerceTable (df : List Row) : List CRow :=
  df.map (coerceRow (pnlDtypeObject df))

/-- The Expiration value of a coerced row (missing cell is null / NaT). -/
def expOf (r : CRow) : Option Nat :=
  match r.lookup "Expiration" with
  | some (.date d) => d
  | _ => none

/-- The Profit/Loss value of a coerced row: a coerced cell directly, an
uncoerced numeric cell (float dtype) as its number, anything else null. -/
def pnlOf (r : CRow) : Option ℚ :=
  match r.lookup "Profit/Loss" with
  | some (.money q) => q
  | some (.json (.num q)) => some q
  | _ => none

/-- The (Expiration, Profit/Loss) pairs the aggregation operates on. -/
def toPairs (cdf : List CRow) : List (Option Nat × Option ℚ) :=
  cdf.map fun r => (expOf r, pnlOf r)

/-- Aggregation over the valid (non-null Expiration) pairs: distinct dates
in ascending order, each with the sum of the non-null Profit/Loss values of
its group (the `groupby(...).sum()` skip-null semantics). -/
def aggValid (valid : List (Option Nat × Option ℚ)) : List (Nat × ℚ) :=
  let keys := List.insertionSort (· ≤ ·) (valid.filterMap Prod.fst).dedup
  keys.map fun d =>
    (d, (valid.filter fun p => decide (p.1 = some d)).foldl (fun a p => a + p.2.getD 0) 0)

/-- Embedding of the `agg_by_exp` frame (src/app.py lines 76-80): drop rows
with null Expiration, group by date, sum Profit/Loss, sort ascending. -/
def aggPairs (pairs : List (Option Nat × Option ℚ)) : List (Nat × ℚ) :=
  aggValid (pairs.filter fun p => p.1.isSome)

/-- Exact floor used by the currency formatter, kept identical to
`Rat.floor`; the value formatted with two decimals displays the cent count
`centsOf q`. Python rounds the float to two decimals; on the exact cent
values this pipeline produces the two agree. -/
def centsOf (q : ℚ) : Int :=
  Rat.floor (100 * q + 1 / 2)

/-- Decimal digits of the integer part, with a thousands separator after
every three digits; input and output are little-endian. -/
def group3 : List Char → List Char
  | d1 :: d2 :: d3 :: d4 :: rest => d1 :: d2 :: d3 :: ',' :: group3 (d4 :: rest)
  | ds => ds

/-- Integer part of a currency string, big-endian with separators. -/
def withSep (m : Nat) : List Char :=
  (group3 (natReprChars m).reverse).reverse

/-- Characters of `"${:,.2f}".format(x)` (a dollar sign, then the sign of
the value, then the integer part with thousands separators, then a point
and exactly two decimals). -/
def fmtChars (q : ℚ) : List Char :=
  let cents := centsOf q
  let n := cents.natAbs
  '$' :: ((if cents < 0 then ['-'] else []) ++ withSep (n / 100) ++
    '.' :: digitChar (n % 100 / 10) :: [digitChar (n % 100 % 10)])

/-- The currency formatter of src/app.py lines 83-85. -/
def fmtCurrency (q : ℚ) : String :=
  String.mk (fmtChars q)

/-- One chart point: date code, summed value, annotation string. -/
def AggPoint := Nat × ℚ × String

/-- The aggregated, annotated output the chart receives: per expiration
date the summed Profit/Loss and its currency string. -/
def aggAnnotated (df : List Row) : List AggPoint :=
  (aggPairs (toPairs (coerceTable df))).map fun pt => (pt.1, pt.2, fmtCurrency pt.2)

/-- Terminal outcome of one refresh cycle after a successful fetch. -/
inductive Outcome where
  | emptyDataset
  | schemaMismatch
  | chart (pts : List AggPoint)

/-- The post-fetch driver logic of src/app.py lines 61-109: the empty-table
check, then coercion, then the column-presence check deciding between the
chart and the schema-mismatch warning. -/
def runApp (df : List Row) : Outcome :=
  if dfEmpty df then .emptyDataset
  else if "Expiration" ∈ dfColumns df ∧ "Profit/Loss" ∈ dfColumns df then
    .chart (aggAnnotated df)
  else .schemaMismatch

unseal Rat.add Rat.mul Rat.inv Rat.sub Rat.ofScientific

/-- C4: on the row table [(2024-01-05, 100), (2024-01-05, -30),
(2024-01-12, 50)] for (Expiration, Profit/Loss), the aggregation groups by
exact date, sums per group, sorts ascending by date, and yields
[(2024-01-05, 70), (2024-01-12, 50)] with the formatted strings "$70.00"
and "$50.00". -/
theorem aggregation_correct_on_example :
    aggAnnotated
      [ [("Expiration", Json.str "2024-01-05"), ("Profit/Loss", Json.num 100)],
        [("Expiration", Json.str "2024-01-05"), ("Profit/Loss", Json.num (-30))],
        [("Expiration", Json.str "2024-01-12"), ("Profit/Loss", Json.num 50)] ]
      = [(20240105, 70, "$70.00"), (20240112, 50, "$50.00")] := by
  rfl

/-- C6: the display-formatted string "$1,234.56", sent through the
Profit/Loss coercion (which strips commas and dollar signs before numeric
parsing), yields the same (Expiration, Profit/Loss) pairs as a column that
already carries the bare number 1234.56 and is passed through unchanged by
the dtype guard. -/
theorem currency_coercion_agreement :
    toPairs (coerceTable [[("Profit/Loss", Json.str "$1,234.56")]])
      = toPairs (coerceTable [[("Profit/Loss", Json.num (123456 / 100))]]) ∧
    toPairs (coerceTable [[("Profit/Loss", Json.num (123456 / 100))]])
      = [(none, some (123456 / 100))] := by
  exact ⟨rfl, rfl⟩

/-- C9: a fetch that retrieves zero rows produces the empty table, the
driver signals the empty-dataset outcome on it (no aggregation, no chart),
and that outcome is distinct from the schema-mismatch outcome. -/
theorem empty_dataset_signal :
    fetchLoop (simApi []) 1 none [] = FetchResult.ok [] ∧
    runApp [] = Outcome.emptyDataset ∧
    Outcome.emptyDataset ≠ Outcome.schemaMismatch := by
  refine ⟨rfl, rfl, fun h => ?_⟩
  exact Outcome.noConfusion h

/-- C5 counterexample: at the negative summed value -1234.5 the formatter
produces "$-1,234.50", with the minus sign after the dollar sign, not the
claimed "-$1,234.50" with a leading minus before it. -/
theorem c5_sign_counterexample :
    fmtCurrency (-(1234.5 : ℚ)) = "$-1,234.50" ∧
    fmtCurrency (-(1234.5 : ℚ)) ≠ "-$1,234.50" := by
  refine ⟨rfl, ?_⟩
  decide

/-- C2 counterexample: against an API whose every response is an empty page
with a true has-more flag, the loop keeps iterating: receiving an empty
page does not stop the pagination, only a falsy has-more flag does (with
fuel 5 the loop consumes all its fuel instead of returning after the first
empty page). -/
theorem c2_empty_page_counterexample :
    fetchLoop (fun _ => ⟨[], true, some 0⟩) 5 none [] = FetchResult.fuelOut ∧
    fetchLoop (fun _ => ⟨[], true, some 0⟩) 1 none [] = FetchResult.fuelOut := by
  exact ⟨rfl, rfl⟩

theorem fragsText_map_str (ss : List String) :
    fragsText (ss.map fun s => Json.obj [("plain_text", Json.str s)])
      = some (ss.foldr (fun a b => a ++ b) "") := by
  induction ss with
  | nil => rfl
  | cons s rest ih => simp [fragsText, fragText, List.lookup, ih]

theorem plain_text_map_str (ss : List String) :
    plain_text (Json.arr (ss.map fun s => Json.obj [("plain_text", Json.str s)]))
      = some (ss.foldr (fun a b => a ++ b) "") := by
  cases ss with
  | nil => rfl
  | cons s rest =>
      simp only [plain_text, Json.truthy, List.map_cons, List.isEmpty_cons, Bool.not_false,
        if_true]
      exact fragsText_map_str (s :: rest)

/-- C3: the extractor yields the documented scalar for every tag: title and
rich-text yield the concatenation of the fragment texts (empty string when
the payload is null), number passes the payload through unchanged
(including null), select yields the selection label or null without a
selection, date yields the start of the range or null, formula yields the
value of the first present field among number, string, date, boolean in
that priority order and the raw payload when none is present, and every
unrecognised tag passes the raw payload through unchanged. -/
theorem get_prop_val_spec :
    (∀ ss : List String,
      get_prop_val ⟨"title", Json.arr (ss.map fun s => Json.obj [("plain_text", Json.str s)])⟩
        = some (Json.str (ss.foldr (fun a b => a ++ b) ""))) ∧
    (∀ ss : List String,
      get_prop_val ⟨"rich_text", Json.arr (ss.map fun s => Json.obj [("plain_text", Json.str s)])⟩
        = some (Json.str (ss.foldr (fun a b => a ++ b) ""))) ∧
    get_prop_val ⟨"title", Json.null⟩ = some (Json.str "") ∧
    (∀ v, get_prop_val ⟨"number", v⟩ = some v) ∧
    (∀ j fs, get_prop_val ⟨"select", Json.obj (("name", j) :: fs)⟩ = some j) ∧
    get_prop_val ⟨"select", Json.null⟩ = some Json.null ∧
    (∀ j fs, get_prop_val ⟨"date", Json.obj (("start", j) :: fs)⟩ = some j) ∧
    get_prop_val ⟨"date", Json.null⟩ = some Json.null ∧
    (∀ fs x, fs.lookup "number" = some x →
      get_prop_val ⟨"formula", Json.obj fs⟩ = some x) ∧
    (∀ fs x, fs.lookup "number" = none → fs.lookup "string" = some x →
      get_prop_val ⟨"formula", Json.obj fs⟩ = some x) ∧
    (∀ fs x, fs.lookup "number" = none → fs.lookup "string" = none →
      fs.lookup "date" = some x →
      get_prop_val ⟨"formula", Json.obj fs⟩ = some x) ∧
    (∀ fs x, fs.lookup "number" = none → fs.lookup "string" = none →
      fs.lookup "date" = none → fs.lookup "boolean" = some x →
      get_prop_val ⟨"formula", Json.obj fs⟩ = some x) ∧
    (∀ fs, fs.lookup "number" = none → fs.lookup "string" = none →
      fs.lookup "date" = none → fs.lookup "boolean" = none →
      get_prop_val ⟨"formula", Json.obj fs⟩ = some (Json.obj fs)) ∧
    (∀ t v,
      t ∉ (["title", "rich_text", "number", "select", "date", "formula"] : List String) →
      get_prop_val ⟨t, v⟩ = some v) := by
  refine ⟨?_, ?_, rfl, ?_, ?_, rfl, ?_, rfl, ?_, ?_, ?_, ?_, ?_, ?_⟩
  · intro ss
    simp [get_prop_val, plain_text_map_str]
  · intro ss
    simp [get_prop_val, plain_text_map_str]
  · intro v
    simp [get_prop_val]
  · intro j fs
    simp [get_prop_val, Json.truthy, Json.index, List.lookup]
  · intro j fs
    simp [get_prop_val, Json.truthy, Json.index, List.lookup]
  · intro fs x h
    simp [get_prop_val, formulaKeys, Json.mem, Json.index, h]
  · intro fs x h1 h2
    simp [get_prop_val, formulaKeys, Json.mem, Json.index, h1, h2]
  · intro fs x h1 h2 h3
    simp [get_prop_val, formulaKeys, Json.mem, Json.index, h1, h2, h3]
  · intro fs x h1 h2 h3 h4
    simp [get_prop_val, formulaKeys, Json.mem, Json.index, h1, h2, h3, h4]
  · intro fs h1 h2 h3 h4
    simp [get_prop_val, formulaKeys, Json.mem, Json.index, h1, h2, h3, h4]
  · intro t v h
    simp only [List.mem_cons, List.not_mem_nil, or_false, not_or] at h
    obtain ⟨h1, h2, h3, h4, h5, h6⟩ := h
    simp [get_prop_val, h1, h2, h3, h4, h5, h6]

/-- Witness instantiating the extraction theorem at concrete inputs: a
formula payload carrying both a number and a string yields the number (the
priority order), and an unrecognised tag passes its payload through. -/
theorem get_prop_val_spec_witness :
    get_prop_val ⟨"formula", Json.obj [("string", Json.str "s"), ("number", Json.num 5)]⟩
        = some (Json.num 5) ∧
    get_prop_val ⟨"checkbox", Json.bool true⟩ = some (Json.bool true) := by
  constructor
  · exact get_prop_val_spec.2.2.2.2.2.2.2.2.1
      [("string", Json.str "s"), ("number", Json.num 5)] (Json.num 5) (by rfl)
  · exact get_prop_val_spec.2.2.2.2.2.2.2.2.2.2.2.2.2 "checkbox" (Json.bool true) (by decide)

/-- C8: on every non-empty table lacking the "Expiration" column or the
"Profit/Loss" column (by exact name), the driver does not aggregate and
signals the schema-mismatch outcome instead of a chart; `runApp` is a total
function, so no such table can crash the driver. -/
theorem schema_mismatch_detect (df : List Row) (hne : dfEmpty df = false)
    (hcol : "Expiration" ∉ dfColumns df ∨ "Profit/Loss" ∉ dfColumns df) :
    runApp df = Outcome.schemaMismatch := by
  unfold runApp
  rw [if_neg, if_neg]
  · rcases hcol with h | h
    · exact fun hc => h hc.1
    · exact fun hc => h hc.2
  · simp [hne]

/-- Witness for the schema-mismatch theorem: a one-row table with a single
unrelated column produces the schema-mismatch outcome. -/
theorem schema_mismatch_detect_witness :
    runApp [[("Foo", Json.num 1)]] = Outcome.schemaMismatch :=
  schema_mismatch_detect [[("Foo", Json.num 1)]] (by decide) (Or.inl (by decide))

theorem flattenAll_length :
    ∀ {rs : List Record} {rows : List Row}, flattenAll rs = some rows →
      rows.length = rs.length := by
  intro rs
  induction rs with
  | nil => intro rows h; cases h; rfl
  | cons r rest ih =>
      intro rows h
      unfold flattenAll at h
      cases hr : flattenRecord r with
      | none => rw [hr] at h; cases h
      | some row =>
          rw [hr] at h
          cases hrest : flattenAll rest with
          | none => rw [hrest] at h; cases h
          | some rows2 =>
              rw [hrest] at h
              cases h
              simp [ih hrest]

theorem flattenAll_append_inv :
    ∀ {a b : List Record} {r : List Row}, flattenAll (a ++ b) = some r →
      ∃ x y, flattenAll a = some x ∧ flattenAll b = some y ∧ r = x ++ y := by
  intro a
  induction a with
  | nil => intro b r h; exact ⟨[], r, rfl, h, rfl⟩
  | cons rec rest ih =>
      intro b r h
      rw [List.cons_append] at h
      unfold flattenAll at h
      cases hr : flattenRecord rec with
      | none => rw [hr] at h; cases h
      | some row =>
          rw [hr] at h
          cases hrest : flattenAll (rest ++ b) with
          | none => rw [hrest] at h; cases h
          | some rows2 =>
              rw [hrest] at h
              cases h
              obtain ⟨x, y, hx, hy, hxy⟩ := ih hrest
              refine ⟨row :: x, y, ?_, hy, by simp [hxy]⟩
              unfold flattenAll
              rw [hr, hx]

theorem fetchLoop_sim (rs : List Record) :
    ∀ (f : Nat) (c : Option Nat) (acc : List Row) (rest : List Row),
      flattenAll (rs.drop (c.getD 0)) = some rest →
      1 ≤ f → rs.length - c.getD 0 ≤ 100 * f →
      fetchLoop (simApi rs) f c acc = .ok (acc ++ rest) := by
  intro f
  induction f with
  | zero => intro c acc rest _ h1 _; omega
  | succ f ih =>
      intro c acc rest hflat _ hfuel
      have hdd : (rs.drop (c.getD 0)).drop 100 = rs.drop (c.getD 0 + 100) := by
        rw [List.drop_drop, Nat.add_comm]
      have hsplit : rs.drop (c.getD 0)
          = (rs.drop (c.getD 0)).take 100 ++ rs.drop (c.getD 0 + 100) := by
        rw [← hdd, List.take_append_drop]
      rw [hsplit] at hflat
      obtain ⟨r1, r2, h1, h2, hr⟩ := flattenAll_append_inv hflat
      show (match flattenAll (simApi rs c).results with
        | none => FetchResult.error
        | some newRows =>
            if (simApi rs c).has_more then
              fetchLoop (simApi rs) f (simApi rs c).next_cursor (acc ++ newRows)
            else FetchResult.ok (acc ++ newRows)) = FetchResult.ok (acc ++ rest)
      have hres : (simApi rs c).results = (rs.drop (c.getD 0)).take 100 := rfl
      rw [hres, h1]
      by_cases hmore : c.getD 0 + 100 < rs.length
      · have hm : (simApi rs c).has_more = true := by
          simp [simApi, hmore]
        rw [hm]
        simp only [if_true]
        have hnext : (simApi rs c).next_cursor = some (c.getD 0 + 100) := rfl
        rw [hnext]
        have := ih (some (c.getD 0 + 100)) (acc ++ r1) r2 h2 (by omega) (by
          simp only [Option.getD_some]
          omega)
        simp only [Option.getD_some] at this
        rw [this, hr, List.append_assoc]
      · have hm : (simApi rs c).has_more = false := by
          simp [simApi]
          omega
        rw [hm]
        simp only [if_false, Bool.false_eq_true]
        have hdropnil : rs.drop (c.getD 0 + 100) = [] :=
          List.drop_eq_nil_of_le (by omega)
        rw [hdropnil] at h2
        cases h2
        rw [hr, List.append_nil]

/-- C1: against the simulated API that serves the record list `rs` in pages
of at most 100 records (each page with its has-more flag and continuation
cursor), the retriever returns exactly one row per record, in page order:
its result is the flattening of `rs` itself, and has length `rs.length`,
for every record count including 0, 100 and 101. The fuel bound
`rs.length / 100 + 1` is the number of pages the API serves. -/
theorem fetch_pagination_complete (rs : List Record) (rows : List Row) (f : Nat)
    (hflat : flattenAll rs = some rows) (hfuel : rs.length / 100 + 1 ≤ f) :
    fetchLoop (simApi rs) f none [] = .ok rows ∧ rows.length = rs.length := by
  constructor
  · have := fetchLoop_sim rs f none [] rows (by simpa using hflat) (by omega) (by
      simp only [Option.getD_none]
      omega)
    simpa using this
  · exact flattenAll_length hflat

/-- Witness for pagination completeness: 101 identical one-property records
are returned as 101 rows by a two-page fetch. -/
theorem fetch_pagination_complete_witness :
    fetchLoop
      (simApi (List.replicate 101 [("Name",
        PropertyValue.mk "title" (Json.arr [Json.obj [("plain_text", Json.str "x")]]))]))
      2 none []
      = .ok (List.replicate 101 [("Name", Json.str "x")]) ∧
    (List.replicate 101 [("Name", Json.str "x")] : List Row).length
      = (List.replicate 101 [("Name",
          PropertyValue.mk "title" (Json.arr [Json.obj [("plain_text", Json.str "x")]]))] :
          List Record).length :=
  fetch_pagination_complete _ _ 2 (by rfl) (by simp)

/-- C2 (amended): the pagination loop terminates on every response sequence
in which the cursor chain reaches a response with a falsy has-more flag —
the flag, not page emptiness, decides termination — and an empty page whose
has-more flag is false ends the pagination normally, returning the rows
accumulated so far rather than an error. -/
theorem fetch_termination_amended :
    (∀ (query : Option Nat → QueryResponse) (k : Nat) (c : Option Nat),
      (query (iterCursor query c k)).has_more = false →
      ∀ (f : Nat) (acc : List Row), k < f →
        fetchLoop query f c acc ≠ FetchResult.fuelOut) ∧
    (∀ (query : Option Nat → QueryResponse) (c nc : Option Nat)
      (acc : List Row) (f : Nat),
      query c = ⟨[], false, nc⟩ →
      fetchLoop query (f + 1) c acc = FetchResult.ok acc) := by
  constructor
  · intro query k
    induction k with
    | zero =>
        intro c hm f acc hf
        obtain ⟨f, rfl⟩ : ∃ g, f = g + 1 := ⟨f - 1, by omega⟩
        show (match flattenAll (query c).results with
          | none => FetchResult.error
          | some newRows =>
              if (query c).has_more then
                fetchLoop query f (query c).next_cursor (acc ++ newRows)
              else FetchResult.ok (acc ++ newRows)) ≠ FetchResult.fuelOut
        cases flattenAll (query c).results with
        | none => simp
        | some newRows =>
            simp only [iterCursor] at hm
            simp [hm]
    | succ k ih =>
        intro c hm f acc hf
        obtain ⟨f, rfl⟩ : ∃ g, f = g + 1 := ⟨f - 1, by omega⟩
        show (match flattenAll (query c).results with
          | none => FetchResult.error
          | some newRows =>
              if (query c).has_more then
                fetchLoop query f (query c).next_cursor (acc ++ newRows)
              else FetchResult.ok (acc ++ newRows)) ≠ FetchResult.fuelOut
        cases flattenAll (query c).results with
        | none => simp
        | some newRows =>
            cases hq : (query c).has_more with
            | false => simp
            | true =>
                simp only [if_true]
                exact ih ((query c).next_cursor) hm f (acc ++ newRows) (by omega)
  · intro query c nc acc f hq
    show (match flattenAll (query c).results with
      | none => FetchResult.error
      | some newRows =>
          if (query c).has_more then
            fetchLoop query f (query c).next_cursor (acc ++ newRows)
          else FetchResult.ok (acc ++ newRows)) = FetchResult.ok acc
    rw [hq]
    simp [flattenAll]

/-- Witness for the amended termination theorem: a query chain whose third
response has a falsy has-more flag terminates within fuel 3, and a single
empty page with a falsy has-more flag returns the empty row list. -/
theorem fetch_termination_amended_witness :
    fetchLoop
      (fun c => if c.getD 0 < 2 then ⟨[], true, some (c.getD 0 + 1)⟩ else ⟨[], false, none⟩)
      3 none [] ≠ FetchResult.fuelOut ∧
    fetchLoop (fun _ => ⟨[], false, none⟩) 1 none [] = FetchResult.ok [] :=
  ⟨fetch_termination_amended.1 _ 2 none (by rfl) 3 [] (by omega),
   fetch_termination_amended.2 _ none none [] 0 rfl⟩

theorem coerceRow_fst (b : Bool) (r : Row) :
    (coerceRow b r).map Prod.fst = r.map Prod.fst := by
  simp only [coerceRow, List.map_map]
  congr 1
  funext kv
  by_cases h1 : kv.1 = "Expiration"
  · simp [h1, Function.comp]
  · by_cases h2 : kv.1 = "Profit/Loss" ∧ b
    · simp [h1, h2, Function.comp]
    · simp [h1, h2, Function.comp]

theorem coerceRow_lookup (b : Bool) (c : String) (hc1 : c ≠ "Expiration")
    (hc2 : c ≠ "Profit/Loss") :
    ∀ r : Row, (coerceRow b r).lookup c = (r.lookup c).map CellVal.json := by
  intro r
  induction r with
  | nil => rfl
  | cons kv rest ih =>
      simp only [coerceRow, List.map_cons] at ih ⊢
      by_cases h1 : kv.1 = "Expiration"
      · rw [if_pos h1]
        have hck : (c == kv.1) = false := by
          simp only [beq_eq_false_iff_ne, ne_eq]
          exact fun h => hc1 (h.trans h1)
        simp [List.lookup, hck, ih]
      · by_cases h2 : kv.1 = "Profit/Loss" ∧ b = true
        · rw [if_neg h1, if_pos h2]
          have hck : (c == kv.1) = false := by
            simp only [beq_eq_false_iff_ne, ne_eq]
            exact fun h => hc2 (h.trans h2.1)
          simp [List.lookup, hck, ih]
        · rw [if_neg h1, if_neg h2]
          by_cases hck : c = kv.1
          · simp [List.lookup, hck]
          · have hbeq : (c == kv.1) = false := by
              simp [hck]
            simp [List.lookup, hbeq, ih]

/-- C10: the coercion step rewrites at most the "Expiration" and
"Profit/Loss" columns: the coerced table has the same row count, the same
row order and the same per-row column names as the raw table, and every
cell of every other column is carried over unchanged (injected untouched
into the coerced cell type); the aggregation consumes the coerced frame
through derived values only. -/
theorem coercion_frame (df : List Row) :
    (coerceTable df).length = df.length ∧
    (coerceTable df).map (fun r => r.map Prod.fst) = df.map (fun r => r.map Prod.fst) ∧
    ∀ (i : Nat) (c : String), c ≠ "Expiration" → c ≠ "Profit/Loss" →
      ((coerceTable df)[i]?).map (fun r => r.lookup c)
        = (df[i]?).map (fun r => (r.lookup c).map CellVal.json) := by
  refine ⟨by simp [coerceTable], ?_, ?_⟩
  · simp only [coerceTable, List.map_map]
    apply List.map_congr_left
    intro r _
    exact coerceRow_fst _ r
  · intro i c hc1 hc2
    simp only [coerceTable, List.getElem?_map, Option.map_map]
    cases df[i]? with
    | none => rfl
    | some r => exact congrArg some (coerceRow_lookup _ c hc1 hc2 r)

/-- Witness for the frame property: on a concrete two-column row, the cell
of the unrelated column "Foo" is unchanged by coercion. -/
theorem coercion_frame_witness :
    ((coerceTable [[("Foo", Json.str "a"), ("Expiration", Json.str "2024-01-05")]])[0]?).map
        (fun r => r.lookup "Foo")
      = (([[("Foo", Json.str "a"), ("Expiration", Json.str "2024-01-05")]] :
          List Row)[0]?).map (fun r => (r.lookup "Foo").map CellVal.json) :=
  (coercion_frame _).2.2 0 "Foo" (by decide) (by decide)

theorem coerceRow_lookup_exp (b : Bool) :
    ∀ r : Row, (coerceRow b r).lookup "Expiration"
      = (r.lookup "Expiration").map (fun v => CellVal.date (parseExpVal v)) := by
  intro r
  induction r with
  | nil => rfl
  | cons kv rest ih =>
      simp only [coerceRow, List.map_cons] at ih ⊢
      by_cases h1 : kv.1 = "Expiration"
      · rw [if_pos h1]
        have hbeq : ("Expiration" == kv.1) = true := by
          simp [h1]
        simp [List.lookup, hbeq]
      · have hbeq : ("Expiration" == kv.1) = false := by
          simp only [beq_eq_false_iff_ne, ne_eq]
          exact fun h => h1 h.symm
        by_cases h2 : kv.1 = "Profit/Loss" ∧ b = true
        · rw [if_neg h1, if_pos h2]
          simp [List.lookup, hbeq, ih]
        · rw [if_neg h1, if_neg h2]
          simp [List.lookup, hbeq, ih]

theorem coerceRow_lookup_pnl (b : Bool) :
    ∀ r : Row, (coerceRow b r).lookup "Profit/Loss"
      = (r.lookup "Profit/Loss").map
          (fun v => if b then CellVal.money (coercePnlObj v) else CellVal.json v) := by
  intro r
  induction r with
  | nil => rfl
  | cons kv rest ih =>
      simp only [coerceRow, List.map_cons] at ih ⊢
      by_cases h1 : kv.1 = "Expiration"
      · rw [if_pos h1]
        have hbeq : ("Profit/Loss" == kv.1) = false := by
          simp [h1]
        simp [List.lookup, hbeq, ih]
      · by_cases hp : kv.1 = "Profit/Loss"
        · have hbeq : ("Profit/Loss" == kv.1) = true := by
            simp [hp]
          cases b with
          | true =>
              rw [if_neg h1, if_pos ⟨hp, rfl⟩]
              simp [List.lookup, hbeq]
          | false =>
              rw [if_neg h1, if_neg (fun h => Bool.false_ne_true h.2)]
              simp [List.lookup, hbeq]
        · have hbeq : ("Profit/Loss" == kv.1) = false := by
            simp only [beq_eq_false_iff_ne, ne_eq]
            exact fun h => hp h.symm
          by_cases h2 : kv.1 = "Profit/Loss" ∧ b = true
          · exact absurd h2.1 hp
          · rw [if_neg h1, if_neg h2]
            simp [List.lookup, hbeq, ih]

theorem expOf_coerceRow (b : Bool) (r : Row) :
    expOf (coerceRow b r) = (r.lookup "Expiration").bind parseExpVal := by
  unfold expOf
  rw [coerceRow_lookup_exp]
  cases r.lookup "Expiration" <;> rfl

theorem pnlOf_coerceRow_true (r : Row) :
    pnlOf (coerceRow true r) = (r.lookup "Profit/Loss").bind coercePnlObj := by
  unfold pnlOf
  rw [coerceRow_lookup_pnl]
  cases r.lookup "Profit/Loss" <;> rfl

theorem pnlOf_coerceRow_false (r : Row) :
    pnlOf (coerceRow false r)
      = (r.lookup "Profit/Loss").bind
          (fun v => match v with | .num q => some q | _ => none) := by
  unfold pnlOf
  rw [coerceRow_lookup_pnl]
  cases hv : r.lookup "Profit/Loss" with
  | none => rfl
  | some v => cases v <;> rfl

theorem pnlOf_coerceRow_agree (b : Bool) (r : Row) (hgood : pnlCellBad r = false) :
    pnlOf (coerceRow b r) = pnlOf (coerceRow false r) := by
  cases b with
  | false => rfl
  | true =>
      rw [pnlOf_coerceRow_true, pnlOf_coerceRow_false]
      unfold pnlCellBad at hgood
      cases hv : r.lookup "Profit/Loss" with
      | none => rfl
      | some v =>
          rw [hv] at hgood
          cases v with
          | num q => rfl
          | null => cases hgood
          | bool x => cases hgood
          | str s => cases hgood
          | arr xs => cases hgood
          | obj fs => cases hgood

theorem aggPairs_skip_none (x z : List (Option Nat × Option ℚ)) (y : Option ℚ) :
    aggPairs (x ++ (none, y) :: z) = aggPairs (x ++ z) := by
  unfold aggPairs
  simp [List.filter_append, List.filter_cons]

theorem toPairs_map_coerceRow (b : Bool) (df : List Row) :
    toPairs (df.map (coerceRow b))
      = df.map (fun row => (expOf (coerceRow b row), pnlOf (coerceRow b row))) := by
  simp [toPairs, List.map_map]

theorem pairs_congr (b b' : Bool) (df : List Row)
    (h : ∀ x ∈ df, pnlCellBad x = false) :
    df.map (fun row => (expOf (coerceRow b row), pnlOf (coerceRow b row)))
      = df.map (fun row => (expOf (coerceRow b' row), pnlOf (coerceRow b' row))) := by
  apply List.map_congr_left
  intro x hx
  have hg := h x hx
  rw [expOf_coerceRow, expOf_coerceRow, pnlOf_coerceRow_agree b x hg,
    pnlOf_coerceRow_agree b' x hg]

/-- C7: a row whose Expiration cell is missing or unparsable as a calendar
date is coerced to null without raising (on either dtype branch), the row
is excluded from the aggregation output (removing it leaves the aggregated,
annotated result unchanged), and the row still appears in the coerced raw
table, at its original position, with the table keeping its full row
count. -/
theorem null_exclusion (pre post : List Row) (r : Row)
    (hbad : (r.lookup "Expiration").bind parseExpVal = none) :
    expOf (coerceRow true r) = none ∧
    expOf (coerceRow false r) = none ∧
    aggAnnotated (pre ++ r :: post) = aggAnnotated (pre ++ post) ∧
    (coerceTable (pre ++ r :: post)).length = pre.length + 1 + post.length ∧
    (coerceTable (pre ++ r :: post))[pre.length]?
      = some (coerceRow (pnlDtypeObject (pre ++ r :: post)) r) := by
  refine ⟨by rw [expOf_coerceRow]; exact hbad,
    by rw [expOf_coerceRow]; exact hbad, ?_, ?_, ?_⟩
  · have hpairs1 : toPairs (coerceTable (pre ++ r :: post))
        = (pre ++ r :: post).map
            (fun row => (expOf (coerceRow (pnlDtypeObject (pre ++ r :: post)) row),
              pnlOf (coerceRow (pnlDtypeObject (pre ++ r :: post)) row))) :=
      toPairs_map_coerceRow _ _
    have hpairs2 : toPairs (coerceTable (pre ++ post))
        = (pre ++ post).map
            (fun row => (expOf (coerceRow (pnlDtypeObject (pre ++ post)) row),
              pnlOf (coerceRow (pnlDtypeObject (pre ++ post)) row))) :=
      toPairs_map_coerceRow _ _
    unfold aggAnnotated
    rw [hpairs1, hpairs2, List.map_append, List.map_cons, expOf_coerceRow, hbad,
      aggPairs_skip_none, ← List.map_append]
    suffices hmaps :
        (pre ++ post).map
            (fun row => (expOf (coerceRow (pnlDtypeObject (pre ++ r :: post)) row),
              pnlOf (coerceRow (pnlDtypeObject (pre ++ r :: post)) row)))
          = (pre ++ post).map
              (fun row => (expOf (coerceRow (pnlDtypeObject (pre ++ post)) row),
                pnlOf (coerceRow (pnlDtypeObject (pre ++ post)) row))) by
      rw [hmaps]
    by_cases hbb : pnlDtypeObject (pre ++ r :: post) = pnlDtypeObject (pre ++ post)
    · rw [hbb]
    · have hb2 : pnlDtypeObject (pre ++ post) = false := by
        cases h2 : pnlDtypeObject (pre ++ post) with
        | false => rfl
        | true =>
            exfalso
            apply hbb
            rw [h2]
            unfold pnlDtypeObject at h2 ⊢
            rw [List.any_append] at h2
            rw [List.any_append, List.any_cons]
            rcases Bool.or_eq_true_iff.mp h2 with h | h
            · simp [h]
            · simp [h]
      apply pairs_congr
      intro x hx
      unfold pnlDtypeObject at hb2
      rw [List.any_append] at hb2
      rcases List.mem_append.mp hx with hm | hm
      · have := Bool.or_eq_false_iff.mp hb2
        simpa using List.any_eq_false.mp this.1 x hm
      · have := Bool.or_eq_false_iff.mp hb2
        simpa using List.any_eq_false.mp this.2 x hm
  · simp [coerceTable]
    omega
  · unfold coerceTable
    rw [List.getElem?_map, List.getElem?_append_right (Nat.le_refl _), Nat.sub_self]
    simp

/-- Witness for null exclusion: inserting a row with the unparsable
Expiration text "oops" in front of a one-row table leaves the aggregated
output unchanged. -/
theorem null_exclusion_witness :
    aggAnnotated
        ([[("Expiration", Json.str "oops"), ("Profit/Loss", Json.num 2)]] ++
          [[("Expiration", Json.str "2024-01-05"), ("Profit/Loss", Json.num 1)]])
      = aggAnnotated [[("Expiration", Json.str "2024-01-05"), ("Profit/Loss", Json.num 1)]] :=
  (null_exclusion [] [[("Expiration", Json.str "2024-01-05"), ("Profit/Loss", Json.num 1)]]
    [("Expiration", Json.str "oops"), ("Profit/Loss", Json.num 2)] (by rfl)).2.2.1

theorem digitChar_props (d : Nat) (h : d < 10) :
    (digitChar d).isDigit = true ∧ digitVal (digitChar d) = d ∧
    digitChar d ≠ ',' ∧ digitChar d ≠ '$' ∧ digitChar d ≠ '.' ∧
    digitChar d ≠ '-' ∧ digitChar d ≠ '+' := by
  interval_cases d <;>
    exact ⟨rfl, rfl, by decide, by decide, by decide, by decide, by decide⟩

theorem digitsRevF_chars :
    ∀ f n, ∀ c ∈ digitsRevF f n, ∃ d, d < 10 ∧ c = digitChar d := by
  intro f
  induction f with
  | zero => intro n c hc; cases hc
  | succ f ih =>
      intro n c hc
      rw [digitsRevF] at hc
      by_cases hn : n = 0
      · rw [if_pos hn] at hc; cases hc
      · rw [if_neg hn] at hc
        rcases List.mem_cons.mp hc with h | h
        · exact ⟨n % 10, Nat.mod_lt _ (by omega), h⟩
        · exact ih (n / 10) c h

theorem natReprChars_chars (m : Nat) :
    ∀ c ∈ natReprChars m, ∃ d, d < 10 ∧ c = digitChar d := by
  intro c hc
  unfold natReprChars at hc
  by_cases hm : m = 0
  · rw [if_pos hm] at hc
    rcases List.mem_singleton.mp hc with rfl
    exact ⟨0, by omega, rfl⟩
  · rw [if_neg hm] at hc
    exact digitsRevF_chars m m c (List.mem_reverse.mp hc)

theorem valOfDigits_digitsRevF :
    ∀ f n a, n ≤ f →
      valOfDigits a (digitsRevF f n).reverse
        = a * 10 ^ (digitsRevF f n).length + n := by
  intro f
  induction f with
  | zero =>
      intro n a hn
      have : n = 0 := by omega
      subst this
      simp [digitsRevF, valOfDigits]
  | succ f ih =>
      intro n a hn
      rw [digitsRevF]
      by_cases hn0 : n = 0
      · subst hn0
        simp [valOfDigits]
      · rw [if_neg hn0]
        rw [List.reverse_cons]
        unfold valOfDigits
        rw [List.foldl_append]
        have hlt : n / 10 < n := Nat.div_lt_self (Nat.pos_of_ne_zero hn0) (by norm_num)
        have hrec := ih (n / 10) a (by omega)
        unfold valOfDigits at hrec
        rw [hrec]
        have hdv : digitVal (digitChar (n % 10)) = n % 10 :=
          (digitChar_props (n % 10) (Nat.mod_lt _ (by omega))).2.1
        simp only [List.foldl_cons, List.foldl_nil, hdv]
        have h1 : n / 10 * 10 + n % 10 = n := by
          have := Nat.div_add_mod n 10
          omega
        calc (a * 10 ^ (digitsRevF f (n / 10)).length + n / 10) * 10 + n % 10
            = a * (10 ^ (digitsRevF f (n / 10)).length * 10)
              + (n / 10 * 10 + n % 10) := by ring
          _ = a * 10 ^ (digitChar (n % 10) :: digitsRevF f (n / 10)).length + n := by
              rw [h1, List.length_cons, pow_succ]

theorem valOfDigits_natReprChars (m : Nat) :
    valOfDigits 0 (natReprChars m) = m := by
  unfold natReprChars
  by_cases hm : m = 0
  · rw [if_pos hm, hm]
    rfl
  · rw [if_neg hm]
    rw [valOfDigits_digitsRevF m m 0 (Nat.le_refl m)]
    simp

theorem natReprChars_ne_nil (m : Nat) : natReprChars m ≠ [] := by
  unfold natReprChars
  by_cases hm : m = 0
  · rw [if_pos hm]
    simp
  · rw [if_neg hm]
    cases m with
    | zero => exact absurd rfl hm
    | succ k =>
        rw [digitsRevF, if_neg hm]
        simp

theorem group3_filter (p : Char → Bool) (hp : p ',' = false) :
    ∀ ds : List Char, (∀ c ∈ ds, p c = true) → (group3 ds).filter p = ds := by
  intro ds
  induction ds using group3.induct with
  | case1 d1 d2 d3 d4 rest ih =>
      intro h
      rw [group3]
      simp only [List.filter_cons]
      rw [h d1 (by simp), h d2 (by simp), h d3 (by simp), hp]
      simp only [if_true, if_neg Bool.false_ne_true]
      rw [ih (fun c hc => h c (by simp [List.mem_cons] at hc ⊢; tauto))]
  | case2 ds hshape =>
      intro h
      have hg : group3 ds = ds := by
        rcases ds with _ | ⟨a, _ | ⟨b, _ | ⟨c, _ | ⟨d, rest⟩⟩⟩⟩
        · rfl
        · rfl
        · rfl
        · rfl
        · exact absurd rfl (hshape a b c d rest)
      rw [hg]
      exact List.filter_eq_self.mpr h

theorem parseUnsigned_digit_run :
    ∀ (ds : List Char) (acc : Nat) (seen : Bool) (rest : List Char),
      (∀ c ∈ ds, ∃ d, d < 10 ∧ c = digitChar d) →
      parseUnsigned acc seen (ds ++ rest)
        = parseUnsigned (valOfDigits acc ds) (seen || !ds.isEmpty) rest := by
  intro ds
  induction ds with
  | nil =>
      intro acc seen rest h
      simp [valOfDigits]
  | cons c cs ih =>
      intro acc seen rest h
      obtain ⟨d, hd, rfl⟩ := h c (by simp)
      have hprops := digitChar_props d hd
      rw [List.cons_append]
      show parseUnsigned acc seen (digitChar d :: (cs ++ rest)) = _
      rw [parseUnsigned, if_neg hprops.2.2.2.2.1, if_pos hprops.1]
      rw [ih (acc * 10 + digitVal (digitChar d)) true rest (fun x hx => h x (by simp [hx]))]
      have hval : valOfDigits acc (digitChar d :: cs)
          = valOfDigits (acc * 10 + digitVal (digitChar d)) cs := rfl
      rw [hval]
      simp

theorem parseFrac_two (x y : Nat) (hx : x < 10) (hy : y < 10) :
    parseFrac [digitChar x, digitChar y] = some (x * 10 + y, 2) := by
  have hpx := digitChar_props x hx
  have hpy := digitChar_props y hy
  simp only [parseFrac, hpx.1, hpy.1, if_true]
  rw [hpx.2.1, hpy.2.1]
  norm_num

theorem parseUnsigned_formatted (k frac : Nat) (hfrac : frac < 100) :
    parseUnsigned 0 false
        (natReprChars k ++ '.' :: digitChar (frac / 10) :: [digitChar (frac % 10)])
      = some ((k : ℚ) + (frac : ℚ) / 100) := by
  rw [parseUnsigned_digit_run (natReprChars k) 0 false _ (natReprChars_chars k)]
  rw [valOfDigits_natReprChars]
  have hne : (natReprChars k).isEmpty = false := by
    cases hh : natReprChars k with
    | nil => exact absurd hh (natReprChars_ne_nil k)
    | cons a l => rfl
  rw [hne]
  simp only [Bool.not_false, Bool.or_true]
  rw [parseUnsigned, if_pos rfl]
  rw [parseFrac_two (frac / 10) (frac % 10) (by omega) (Nat.mod_lt _ (by norm_num))]
  simp only [Bool.true_or, if_pos]
  have hfr : frac / 10 * 10 + frac % 10 = frac := by omega
  rw [hfr]
  norm_num

theorem parseNum_pos_formatted (k frac : Nat) (hfrac : frac < 100) :
    parseNum (natReprChars k ++ '.' :: digitChar (frac / 10) :: [digitChar (frac % 10)])
      = some ((k : ℚ) + (frac : ℚ) / 100) := by
  obtain ⟨c, tl, hct⟩ : ∃ c tl, natReprChars k = c :: tl := by
    cases hh : natReprChars k with
    | nil => exact absurd hh (natReprChars_ne_nil k)
    | cons a l => exact ⟨a, l, rfl⟩
  obtain ⟨d, hd, hcd⟩ := natReprChars_chars k c (by rw [hct]; simp)
  have hprops := digitChar_props d hd
  rw [hct, List.cons_append]
  rw [parseNum,
    if_neg (by rw [hcd]; exact hprops.2.2.2.2.2.1),
    if_neg (by rw [hcd]; exact hprops.2.2.2.2.2.2)]
  rw [← List.cons_append, ← hct]
  exact parseUnsigned_formatted k frac hfrac

theorem parseNum_neg_formatted (k frac : Nat) (hfrac : frac < 100) :
    parseNum
        ('-' :: (natReprChars k ++ '.' :: digitChar (frac / 10) :: [digitChar (frac % 10)]))
      = some (-((k : ℚ) + (frac : ℚ) / 100)) := by
  rw [parseNum, if_pos rfl]
  rw [parseUnsigned_formatted k frac hfrac]
  rfl

theorem keep_digitChar (d : Nat) (hd : d < 10) :
    (!(digitChar d == ',' || digitChar d == '$')) = true := by
  have hp := digitChar_props d hd
  rw [beq_eq_false_iff_ne.mpr hp.2.2.1, beq_eq_false_iff_ne.mpr hp.2.2.2.1]
  rfl

theorem keep_natReprChars (m : Nat) :
    ∀ c ∈ natReprChars m, (!(c == ',' || c == '$')) = true := by
  intro c hc
  obtain ⟨d, hd, rfl⟩ := natReprChars_chars m c hc
  exact keep_digitChar d hd

theorem filter_withSep (m : Nat) :
    (withSep m).filter (fun c => !(c == ',' || c == '$')) = natReprChars m := by
  unfold withSep
  rw [List.filter_reverse]
  rw [group3_filter _ (by decide) _
    (fun c hc => keep_natReprChars m c (List.mem_reverse.mp hc))]
  rw [List.reverse_reverse]

theorem stripMoney_fmtChars (q : ℚ) :
    stripMoney (fmtChars q)
      = (if centsOf q < 0 then ['-'] else []) ++
        (natReprChars ((centsOf q).natAbs / 100) ++
          '.' :: digitChar ((centsOf q).natAbs % 100 / 10) ::
            [digitChar ((centsOf q).natAbs % 100 % 10)]) := by
  have k1 : ('$' == ',' || '$' == '$') = true := by decide
  have k2 : ('.' == ',' || '.' == '$') = false := by decide
  have k3 : ('-' == ',' || '-' == '$') = false := by decide
  have kd1 := keep_digitChar ((centsOf q).natAbs % 100 / 10) (by omega)
  have kd2 := keep_digitChar ((centsOf q).natAbs % 100 % 10) (Nat.mod_lt _ (by norm_num))
  simp only [fmtChars, stripMoney, List.filter_cons, List.filter_append, k1, k2, k3,
    Bool.not_true, Bool.not_false, kd1, kd2, if_true, if_false,
    Bool.false_eq_true, filter_withSep]
  by_cases hneg : centsOf q < 0
  · simp [hneg, List.filter_cons, k3]
  · simp [hneg]

theorem centsOf_int_div (n : ℤ) : centsOf ((n : ℚ) / 100) = n := by
  unfold centsOf
  have h1 : (100 : ℚ) * ((n : ℚ) / 100) = (n : ℚ) := by field_simp
  rw [h1]
  have h2 : Rat.floor ((n : ℚ) + 1 / 2) = ⌊((n : ℚ) + 1 / 2 : ℚ)⌋ := by
    rw [Rat.floor_def']
    rw [← Rat.floor_def]
  rw [h2, Int.floor_int_add]
  norm_num

theorem natCast_div_mod_cents (a : ℕ) :
    ((a / 100 : ℕ) : ℚ) + ((a % 100 : ℕ) : ℚ) / 100 = (a : ℚ) / 100 := by
  field_simp
  exact_mod_cast (by omega : a / 100 * 100 + a % 100 = a)

/-- C5 (amended): the formatter produces a currency string with thousands
separators and exactly two decimal digits, but the sign of a negative value
renders after the dollar sign, not before it: for every cent value n, the
output starts with a dollar sign, continues with a minus sign exactly when
the value is negative, ends with a point and two decimal digits, and
stripping the dollar sign and the separators and re-parsing (the
application's own Profit/Loss coercion) recovers the value exactly; on the
spec's examples, 1234.5 formats as "$1,234.50" and -1234.5 as
"$-1,234.50". -/
theorem currency_format_amended (n : ℤ) :
    (∃ body : List Char, fmtChars ((n : ℚ) / 100) = '$' :: body) ∧
    ((n : ℚ) / 100 < 0 → ∃ t : List Char, fmtChars ((n : ℚ) / 100) = '$' :: '-' :: t) ∧
    (∃ (r : List Char) (d1 d2 : Char), d1.isDigit = true ∧ d2.isDigit = true ∧
      fmtChars ((n : ℚ) / 100) = r ++ ['.', d1, d2]) ∧
    coercePnlObj (Json.str (fmtCurrency ((n : ℚ) / 100))) = some ((n : ℚ) / 100) ∧
    fmtCurrency (1234.5 : ℚ) = "$1,234.50" ∧
    fmtCurrency (-(1234.5 : ℚ)) = "$-1,234.50" := by
  have hc : centsOf ((n : ℚ) / 100) = n := centsOf_int_div n
  refine ⟨⟨_, rfl⟩, ?_, ?_, ?_, rfl, rfl⟩
  · intro hq
    have hn : n < 0 := by
      by_contra hge
      push_neg at hge
      have : (0 : ℚ) ≤ (n : ℚ) / 100 :=
        div_nonneg (by exact_mod_cast hge) (by norm_num)
      linarith
    refine ⟨withSep (n.natAbs / 100) ++
      '.' :: digitChar (n.natAbs % 100 / 10) :: [digitChar (n.natAbs % 100 % 10)], ?_⟩
    simp only [fmtChars, hc, if_pos hn]
    rfl
  · refine ⟨'$' :: ((if centsOf ((n : ℚ) / 100) < 0 then ['-'] else []) ++
      withSep ((centsOf ((n : ℚ) / 100)).natAbs / 100)),
      digitChar ((centsOf ((n : ℚ) / 100)).natAbs % 100 / 10),
      digitChar ((centsOf ((n : ℚ) / 100)).natAbs % 100 % 10),
      (digitChar_props _ (by omega)).1,
      (digitChar_props _ (Nat.mod_lt _ (by norm_num))).1, ?_⟩
    simp [fmtChars, List.append_assoc]
  · show parseNum (stripMoney (fmtChars ((n : ℚ) / 100))) = some ((n : ℚ) / 100)
    rw [stripMoney_fmtChars, hc]
    by_cases hn : n < 0
    · rw [if_pos hn]
      have hshape : (['-'] : List Char) ++
          (natReprChars (n.natAbs / 100) ++
            '.' :: digitChar (n.natAbs % 100 / 10) :: [digitChar (n.natAbs % 100 % 10)])
          = '-' :: (natReprChars (n.natAbs / 100) ++
            '.' :: digitChar (n.natAbs % 100 / 10) :: [digitChar (n.natAbs % 100 % 10)]) := rfl
      rw [hshape, parseNum_neg_formatted _ _ (Nat.mod_lt _ (by norm_num))]
      rw [natCast_div_mod_cents]
      have habs : ((n.natAbs : ℚ)) = -(n : ℚ) := by
        rw [Int.cast_natAbs, show |n| = -n from abs_of_neg hn]
        push_cast
        ring
      rw [habs]
      ring_nf
    · rw [if_neg hn]
      rw [List.nil_append, parseNum_pos_formatted _ _ (Nat.mod_lt _ (by norm_num))]
      rw [natCast_div_mod_cents]
      have habs : ((n.natAbs : ℚ)) = (n : ℚ) := by
        rw [Int.cast_natAbs, show |n| = n from abs_of_nonneg (not_lt.mp hn)]
      rw [habs]

/-- Witness for the amended formatting theorem: at the cent value -123456
the formatted string has the minus sign directly after the dollar sign, and
re-parsing the formatted string through the coercion recovers -1234.56. -/
theorem currency_format_amended_witness :
    (∃ t : List Char,
      fmtChars (((-123456 : ℤ) : ℚ) / 100) = '$' :: '-' :: t) ∧
    coercePnlObj (Json.str (fmtCurrency (((-123456 : ℤ) : ℚ) / 100)))
      = some (((-123456 : ℤ) : ℚ) / 100) :=
  ⟨(currency_format_amended (-123456)).2.1 (by norm_num),
   (currency_format_amended (-123456)).2.2.2.1⟩

end OptionsTracker
